import Mathlib

/-!
Shallow embedding of the CLARA_VISIO photon-aggregation pipeline
(src/Stimulus/Light/photon_driver.py, src/Stimulus/Light/photon.py,
src/Cells/Retina/cones.py, src/Utils/hexagonal_layer.py,
src/PrimaryVisualPathway/NeuralRetina/MaculaLutea/input_layer.py).

Floating-point numbers are modelled by ℚ. The transcendental `exp` is not
computable over ℚ, so every definition that calls it is parametrized by a
function `e : ℚ → ℚ` standing for the exponential; theorems that depend on
analytic facts about `exp` (positivity, `exp x ≤ 1` for `x ≤ 0`) take those
facts as hypotheses on `e`.
-/

namespace ClaraVisio

/-- Photon record (src/Stimulus/Light/photon.py): wavelength, optional
position, optional arrival time. -/
structure Photon where
  lambda_nm : ℚ
  x : Option ℚ := none
  y : Option ℚ := none
  t : Option ℚ := none
deriving DecidableEq, Repr

/-- Python str.upper(): uppercase every character. String.toUpper maps
Char.toUpper over the string; it is spelled here through List.map so that
it evaluates by kernel reduction. -/
def strUpper (s : String) : String := String.mk (s.data.map Char.toUpper)

/-- Spectral sensitivity (src/Cells/Retina/cones.py, cone_sensitivity_nm):
Gaussian centered at a per-subtype peak; dictionary lookups with default
560 / 40 for unknown (uppercased) subtype strings; result exp(-0.5*x*x). -/
def cone_sensitivity_nm (e : ℚ → ℚ) (lambda_nm : ℚ) (cone_type : String) : ℚ :=
  let ct := strUpper cone_type
  let mu : ℚ := if ct = "L" then 560 else if ct = "M" then 530
    else if ct = "S" then 420 else 560
  let sigma : ℚ := if ct = "L" then 40 else if ct = "M" then 40
    else if ct = "S" then 35 else 40
  let x := (lambda_nm - mu) / sigma
  e (-(1/2) * x * x)

/-- Temporal binning (photon_driver.py `_time_bin_index`, lines 22-28; the
source name has a leading underscore). Returns none when the time is absent
or outside the window, otherwise the floor of (t - t0) / dt. -/
def time_bin_index (t : Option ℚ) (t0 dt T : ℚ) : Option ℤ :=
  match t with
  | none => none
  | some t => if t < t0 ∨ t0 + T ≤ t then none else some ⌊(t - t0) / dt⌋

/-- First index of a minimal element (np.argmin: ties go to the first
occurrence; argmin of an empty array is a numpy error, modelled as 0 and
never reached because callers guard non-emptiness). -/
def argmin_idx : List ℚ → ℕ
  | [] => 0
  | [_] => 0
  | v :: w :: rest =>
    let j := argmin_idx (w :: rest)
    if v ≤ (w :: rest).getD j 0 then 0 else j + 1

/-- Spatial point-spread weights (photon_driver.py `_gaussian_psf_weights`,
lines 30-54; the source name has a leading underscore). For sigma ≤ 0,
one-hot at the nearest receptor; otherwise e(-0.5 * d2 / sigma^2) per
receptor, divided by its sum when that sum is positive. -/
def gaussian_psf_weights (e : ℚ → ℚ) (px_um py_um : ℚ)
    (rx_um ry_um : List ℚ) (sigma_um : ℚ) : List ℚ :=
  if sigma_um ≤ 0 then
    let d2 := List.zipWith (fun a b => (a - px_um)^2 + (b - py_um)^2) rx_um ry_um
    (List.replicate rx_um.length (0:ℚ)).set (argmin_idx d2) 1
  else
    let w := List.zipWith
      (fun a b => e (-(1/2) * ((a - px_um)^2 + (b - py_um)^2) / sigma_um^2))
      rx_um ry_um
    let s := w.sum
    if s > 0 then w.map (· / s) else w

/-- A 2-D numpy array of shape (rows, cols) as a list of rows. -/
abbrev Mat := List (List ℚ)

/-- np.zeros((n, N)). -/
def zerosMat (n N : ℕ) : Mat := List.replicate n (List.replicate N 0)

/-- Elementwise vector addition (numpy `+=` on aligned 1-D arrays). -/
def rowAdd (r v : List ℚ) : List ℚ := List.zipWith (· + ·) r v

/-- numpy `m[k] += v` for an already wrapped, range-checked index: the rod
loop (rodsStep) only calls this with 0 ≤ k < row count, so the toNat is
exact. -/
def updAdd (m : Mat) (k : ℤ) (v : List ℚ) : Mat :=
  m.set k.toNat (rowAdd (m.getD k.toNat []) v)

/-- Elementwise np.clip(x, 0.0, 1.0). -/
def clipQ (x : ℚ) : ℚ := min 1 (max 0 x)

/-- np.clip(m / c, 0.0, 1.0) on a whole array. Over ℚ a division by zero
yields 0; IEEE arithmetic instead yields NaN (for 0/0) or ±Inf entries,
which matters exactly when the divisor photons_per_L1 + 1e-12 is zero —
see the C2 analysis. -/
def normMat (m : Mat) (c : ℚ) : Mat :=
  m.map (fun row => row.map (fun v => clipQ (v / c)))

/-- Number of scalar entries of an array (numpy `.size`). -/
def matSize (m : Mat) : ℕ := (m.map List.length).sum

/-- The Python dict of per-type cone positions, as an association list. -/
abbrev PosMap := List (String × List (ℚ × ℚ))

/-- The Python dict of per-type output series, as an association list. -/
abbrev SeriesMap := List (String × Mat)

/-- cone_positions.get(key, np.zeros((0, 2))): the pure pre-split lookup
of photon_driver.py lines 99-101 (its results feed only the loop code
after the NameError of line 118, so the builder never consumes them). -/
def lookupPos (m : PosMap) (key : String) : List (ℚ × ℚ) :=
  (m.lookup key).getD []

/-- Dict value update at a key (Python `d[key] = f(d[key])`; dict keys are
unique, so mapping over an association list models the single assignment). -/
def updSeries (st : SeriesMap) (key : String) (f : Mat → Mat) : SeriesMap :=
  st.map (fun kv => if kv.1 = key then (kv.1, f kv.2) else kv)

/-- Retention test of the accumulation loops (photon_driver.py lines
106-112 and 170-172): a photon is retained when its (defaulted) arrival
time falls inside the window and both spatial coordinates are present. -/
def retainedB (T dt t0 : ℚ) (ph : Photon) : Bool :=
  match time_bin_index (some (ph.t.getD t0)) t0 dt T with
  | none => false
  | some _ => ph.x.isSome && ph.y.isSome

/-- One iteration of the cone accumulation loop (photon_driver.py lines
104-134). Lines 106-112 skip photons that are out of window or miss a
coordinate. A retained photon then reaches line 118, which evaluates the
bare name cone_sensitivity_nm; that name is undefined in photon_driver's
module namespace — line 20 imports only the module `cones` — so every
retained photon raises NameError before touching the series. The
spectral, spatial and accumulation code of lines 118-134 is unreachable:
each iteration either leaves the series untouched or aborts the call. -/
def conesLoopStep (T dt t0 : ℚ) (st : SeriesMap) (ph : Photon) :
    Except String SeriesMap :=
  match time_bin_index (some (ph.t.getD t0)) t0 dt T with
  | none => .ok st
  | some _ =>
    match ph.x, ph.y with
    | some _, some _ =>
      .error "NameError: name cone_sensitivity_nm is not defined"
    | _, _ => .ok st

/-- One iteration of the normalization loop (photon_driver.py lines 137-140):
`L_series[tkey]` raises KeyError when the key is absent; arrays with at
least one entry are divided by photons_per_L1 + 1e-12 and clipped. -/
def normStepCones (photons_per_L1 : ℚ) (st : SeriesMap) (tkey : String) :
    Except String SeriesMap :=
  match st.lookup tkey with
  | none => .error "KeyError"
  | some m =>
    if matSize m ≠ 0 then
      .ok (updSeries st tkey (fun mm => normMat mm (photons_per_L1 + 1/1000000000000)))
    else .ok st

/-- build_L_series_for_cones (photon_driver.py lines 56-142). n_steps is
int(np.ceil(T / dt)); dt = 0 (NaN/overflow in the source) and a negative
ceiling (np.zeros rejects negative dimensions) are modelled as errors.
The pre-split position lookups of lines 99-101 are pure and effect-free.
The photon loop raises NameError at the first retained photon (see
conesLoopStep); only runs that retain no photon reach the normalization
loop of lines 137-140, with the series still all zeros. The parameters e
and sigma_um are kept to mirror the source signature, although the code
that would use them is unreachable. -/
def build_L_series_for_cones (e : ℚ → ℚ) (photons : List Photon)
    (cone_positions : PosMap) (T dt t0 sigma_um photons_per_L1 : ℚ) :
    Except String SeriesMap :=
  let c := ⌈T / dt⌉
  if dt = 0 ∨ c < 0 then .error "invalid step count"
  else
    let n_steps := c.toNat
    let init : SeriesMap :=
      cone_positions.map (fun kv => (kv.1, zerosMat n_steps kv.2.length))
    photons.foldlM (conesLoopStep T dt t0) init >>= fun acc =>
      (["S", "M", "L"]).foldlM (normStepCones photons_per_L1) acc

/-- numpy index wrap on the first axis: a negative index counts from the
end. -/
def rodsWrapIdx (n_steps : ℕ) (k : ℤ) : ℤ :=
  if k < 0 then (n_steps : ℤ) + k else k

/-- One iteration of the rod accumulation loop (photon_driver.py lines
169-175): skip out-of-window or position-less photons, otherwise
`Lr[k] += w_sp` — numpy wraps a negative k and raises IndexError when the
wrapped index is outside the n_steps rows (with dt > 0 a retained
photon's index is always in range; negative dt can produce the error). -/
def rodsStep (e : ℚ → ℚ) (rx ry : List ℚ) (n_steps : ℕ)
    (T dt t0 sigma_um : ℚ) (st : Mat) (ph : Photon) : Except String Mat :=
  match time_bin_index (some (ph.t.getD t0)) t0 dt T with
  | none => .ok st
  | some k =>
    match ph.x, ph.y with
    | some px, some py =>
      if 0 ≤ rodsWrapIdx n_steps k ∧ rodsWrapIdx n_steps k < (n_steps : ℤ) then
        .ok (updAdd st (rodsWrapIdx n_steps k)
          (gaussian_psf_weights e px py rx ry sigma_um))
      else .error "IndexError"
    | _, _ => .ok st

/-- Helper (proof infrastructure, not source code): whether a photon makes
the rod loop raise IndexError. -/
def rodsErrB (n_steps : ℕ) (T dt t0 : ℚ) (ph : Photon) : Bool :=
  match time_bin_index (some (ph.t.getD t0)) t0 dt T with
  | none => false
  | some k =>
    match ph.x, ph.y with
    | some _, some _ =>
      !(decide (0 ≤ rodsWrapIdx n_steps k ∧
        rodsWrapIdx n_steps k < (n_steps : ℤ)))
    | _, _ => false

/-- Helper (proof infrastructure, not source code): the row update a
photon performs in the rod loop, if any. -/
def rodsUpdOpt (e : ℚ → ℚ) (rx ry : List ℚ) (n_steps : ℕ)
    (T dt t0 sigma_um : ℚ) (ph : Photon) : Option (ℤ × List ℚ) :=
  match time_bin_index (some (ph.t.getD t0)) t0 dt T with
  | none => none
  | some k =>
    match ph.x, ph.y with
    | some px, some py =>
      if 0 ≤ rodsWrapIdx n_steps k ∧ rodsWrapIdx n_steps k < (n_steps : ℤ) then
        some (rodsWrapIdx n_steps k,
          gaussian_psf_weights e px py rx ry sigma_um)
      else none
    | _, _ => none

/-- Helper (proof infrastructure, not source code): the error-free effect
of one rod-loop iteration. -/
def rodsPure (e : ℚ → ℚ) (rx ry : List ℚ) (n_steps : ℕ)
    (T dt t0 sigma_um : ℚ) (st : Mat) (ph : Photon) : Mat :=
  match rodsUpdOpt e rx ry n_steps T dt t0 sigma_um ph with
  | none => st
  | some iv => updAdd st iv.1 iv.2

/-- build_L_series_for_rods (photon_driver.py lines 145-178): same binning
as cones, no spectral split (and no NameError: _gaussian_psf_weights is a
defined module-level name), early return of the zero array when there are
no rods (before the clip), otherwise accumulate then divide and clip. -/
def build_L_series_for_rods (e : ℚ → ℚ) (photons : List Photon)
    (rod_positions : List (ℚ × ℚ)) (T dt t0 sigma_um photons_per_L1 : ℚ) :
    Except String Mat :=
  let c := ⌈T / dt⌉
  if dt = 0 ∨ c < 0 then .error "invalid step count"
  else
    let n_steps := c.toNat
    let N := rod_positions.length
    let Lr := zerosMat n_steps N
    if N = 0 then .ok Lr
    else
      let rx := rod_positions.map Prod.fst
      let ry := rod_positions.map Prod.snd
      photons.foldlM (rodsStep e rx ry n_steps T dt t0 sigma_um) Lr >>=
        fun acc => .ok (normMat acc (photons_per_L1 + 1/1000000000000))

/-! Hexagonal lattice generator (src/Utils/hexagonal_layer.py). -/

/-- HexPatch dataclass (hexagonal_layer.py lines 20-29). -/
structure HexPatch where
  radius_um : ℚ
  pitch_um : ℚ
  jitter_um : ℚ
  seed : Option ℤ
  center : ℚ × ℚ
  coords : List (ℚ × ℚ)
deriving DecidableEq, Repr

/-- Angle class of np.arctan2(p.2, p.1): 0 for angles in (-pi, 0), 1 for
angle 0 (y = 0, x ≥ 0, including the origin), 2 for angles in (0, pi),
3 for angle pi (y = 0, x < 0). Classes are in increasing angle order. -/
def angClass (p : ℚ × ℚ) : ℕ :=
  if p.2 < 0 then 0 else if p.2 = 0 ∧ 0 ≤ p.1 then 1
  else if 0 < p.2 then 2 else 3

/-- Planar cross product; within the open half-planes (classes 0 and 2) its
sign decides the arctan2 order, since the two angles differ by less than pi. -/
def cross (a b : ℚ × ℚ) : ℚ := a.1 * b.2 - a.2 * b.1

/-- Squared Euclidean norm; comparing radii is equivalent to comparing it. -/
def normSq (p : ℚ × ℚ) : ℚ := p.1 ^ 2 + p.2 ^ 2

/-- Strict comparison of np.arctan2 angles, expressed without
transcendentals: compare angle classes, and inside a class compare by the
cross product (classes 1 and 3 hold a single angle, and there the cross
product is 0, so the second disjunct is never used for them). -/
def angLt (a b : ℚ × ℚ) : Prop :=
  angClass a < angClass b ∨ (angClass a = angClass b ∧ 0 < cross a b)

/-- Equality of np.arctan2 angles: same class and zero cross product. -/
def angEq (a b : ℚ × ℚ) : Prop :=
  angClass a = angClass b ∧ cross a b = 0

/-- The order realized by np.lexsort((r, theta)) with r = hypot and
theta = arctan2, both computed from the coordinates themselves: primary key
angle, secondary key radius. -/
def polarLe (a b : ℚ × ℚ) : Prop :=
  angLt a b ∨ (angEq a b ∧ normSq a ≤ normSq b)

instance (a b : ℚ × ℚ) : Decidable (angLt a b) := by
  unfold angLt; infer_instance

instance (a b : ℚ × ℚ) : Decidable (angEq a b) := by
  unfold angEq; infer_instance

instance (a b : ℚ × ℚ) : Decidable (polarLe a b) := by
  unfold polarLe; infer_instance

/-- Boolean form of polarLe, for mergeSort. -/
def polarLeB (a b : ℚ × ℚ) : Bool := decide (polarLe a b)

/-- Arithmetic mean of a list (np.mean; empty input, a numpy NaN, is
modelled by division by zero, i.e. 0 — unreached for nonempty grids). -/
def meanQ (l : List ℚ) : ℚ := l.sum / l.length

/-- make_hex_circular_patch (hexagonal_layer.py lines 47-86). The raw grid
returned by the external create_hex_grid call (third-party hexalattice
library, not part of this repository) and the rng.normal jitter draws are
passed as parameters `grid` and `noise`. Pipeline: recenter the grid to its
centroid, keep points inside the radius, add the jitter when jitter_um > 0,
translate by the center, then sort with np.lexsort((r, theta)) where r and
theta are recomputed from the translated coordinates. -/
def make_hex_circular_patch (grid noise : List (ℚ × ℚ))
    (radius_um pitch_um jitter_um : ℚ) (seed : Option ℤ)
    (center : ℚ × ℚ) : HexPatch :=
  if radius_um ≤ 0 then
    ⟨radius_um, pitch_um, jitter_um, seed, center, []⟩
  else
    let mx := meanQ (grid.map Prod.fst)
    let my := meanQ (grid.map Prod.snd)
    let coords := grid.map (fun p => (p.1 - mx, p.2 - my))
    let r2 := radius_um ^ 2
    let coords := coords.filter (fun p => p.1 ^ 2 + p.2 ^ 2 ≤ r2)
    let coords := if jitter_um > 0 then
        List.zipWith (fun p n => (p.1 + n.1, p.2 + n.2)) coords noise
      else coords
    let coords := coords.map (fun p => (p.1 + center.1, p.2 + center.2))
    let coords := coords.mergeSort polarLeB
    ⟨radius_um, pitch_um, jitter_um, seed, center, coords⟩

/-! Receptor profile estimator
(src/PrimaryVisualPathway/NeuralRetina/MaculaLutea/input_layer.py). -/

/-- Cone subtype mixture record (the "cone_types" sub-dict). -/
structure ConeTypes where
  L : ℚ
  M : ℚ
  S : ℚ
deriving DecidableEq, Repr

/-- Receptor profile record returned by photoreceptor_profile. -/
structure ReceptorProfile where
  cone : ℚ
  rod : ℚ
  cone_types : ConeTypes
deriving DecidableEq, Repr

/-- photoreceptor_profile (input_layer.py lines 19-74): piecewise densities
and L/M/S mixture per eccentricity band, normalized cone/rod split, and the
subtype split scaled by the cone probability. -/
def photoreceptor_profile (ecc_um : ℚ) : ReceptorProfile :=
  let cone_density : ℚ :=
    if ecc_um < 100 then 200000 else if ecc_um < 350 then 180000
    else if ecc_um < 1500 then 100000 else if ecc_um < 2750 then 40000
    else if ecc_um < 5500 then 15000 else 5000
  let rod_density : ℚ :=
    if ecc_um < 100 then 0 else if ecc_um < 350 then 0
    else if ecc_um < 1500 then 20000 else if ecc_um < 2750 then 100000
    else if ecc_um < 5500 then 150000 else 120000
  let lms : ℚ × ℚ × ℚ :=
    if ecc_um < 100 then (0.50, 0.50, 0.00)
    else if ecc_um < 350 then (0.48, 0.48, 0.04)
    else if ecc_um < 1500 then (0.50, 0.45, 0.05)
    else if ecc_um < 2750 then (0.50, 0.43, 0.07)
    else if ecc_um < 5500 then (0.50, 0.42, 0.08)
    else (0.48, 0.44, 0.08)
  let total := cone_density + rod_density
  if total = 0 then ⟨0, 0, ⟨0, 0, 0⟩⟩
  else
    let p_cone := cone_density / total
    let p_rod := rod_density / total
    let s := max (1/1000000000000) (lms.1 + lms.2.1 + lms.2.2)
    ⟨p_cone, p_rod, ⟨p_cone * (lms.1 / s), p_cone * (lms.2.1 / s),
      p_cone * (lms.2.2 / s)⟩⟩

/-- Modelled from the spec (section 3, HexPatch; section 4.2 step 7): the
claimed ordering relation, polar angle first and radius second, measured
from the patch center rather than from the origin. Used only to state the
sortedness claim the way the spec words it. -/
def polarLeFrom (c : ℚ × ℚ) (a b : ℚ × ℚ) : Prop :=
  polarLe (a.1 - c.1, a.2 - c.2) (b.1 - c.1, b.2 - c.2)

instance (c a b : ℚ × ℚ) : Decidable (polarLeFrom c a b) := by
  unfold polarLeFrom; infer_instance

/-! Theorems. -/

/-- C7: for every eccentricity ≥ 0, photoreceptor_profile returns cone and
rod probabilities summing to 1 (exactly, hence within any tolerance), and
the three spectral-subtype fractions L, M, S sum to the cone probability. -/
theorem c7_profile_probabilities (ecc_um : ℚ) (hecc : 0 ≤ ecc_um) :
    (photoreceptor_profile ecc_um).cone + (photoreceptor_profile ecc_um).rod = 1 ∧
    (photoreceptor_profile ecc_um).cone_types.L +
      (photoreceptor_profile ecc_um).cone_types.M +
      (photoreceptor_profile ecc_um).cone_types.S =
      (photoreceptor_profile ecc_um).cone := by
  simp only [photoreceptor_profile]
  split_ifs <;> first | (norm_num at *) | norm_num

/-- Witness for C7 at eccentricity 0. -/
theorem c7_profile_probabilities_witness :
    (0:ℚ) ≤ 0 ∧
    ((photoreceptor_profile 0).cone + (photoreceptor_profile 0).rod = 1 ∧
      (photoreceptor_profile 0).cone_types.L +
        (photoreceptor_profile 0).cone_types.M +
        (photoreceptor_profile 0).cone_types.S = (photoreceptor_profile 0).cone) :=
  ⟨le_refl 0, c7_profile_probabilities 0 (le_refl 0)⟩

/-- C8: cone_sensitivity_nm applies the exponential to
-0.5·((λ−peak)/bandwidth)² with peaks 560/530/420 and bandwidths 40/40/35
for L/M/S; an unknown subtype string falls back to the L parameters; and
whenever the exponential maps nonpositive arguments into (0, 1], the result
lies in (0, 1] (the argument is always nonpositive; over ℚ every value is
finite). -/
theorem c8_cone_sensitivity_spec (e : ℚ → ℚ) (lambda_nm : ℚ) :
    cone_sensitivity_nm e lambda_nm "L" = e (-(1/2) * ((lambda_nm - 560) / 40)^2) ∧
    cone_sensitivity_nm e lambda_nm "M" = e (-(1/2) * ((lambda_nm - 530) / 40)^2) ∧
    cone_sensitivity_nm e lambda_nm "S" = e (-(1/2) * ((lambda_nm - 420) / 35)^2) ∧
    (∀ ty : String, strUpper ty ∉ (["L", "M", "S"] : List String) →
      cone_sensitivity_nm e lambda_nm ty = cone_sensitivity_nm e lambda_nm "L") ∧
    ((∀ x : ℚ, x ≤ 0 → 0 < e x ∧ e x ≤ 1) → ∀ ty : String,
      0 < cone_sensitivity_nm e lambda_nm ty ∧ cone_sensitivity_nm e lambda_nm ty ≤ 1) := by
  have hL : strUpper "L" = "L" := rfl
  have hM : strUpper "M" = "M" := rfl
  have hS : strUpper "S" = "S" := rfl
  refine ⟨?_, ?_, ?_, ?_, ?_⟩
  · simp only [cone_sensitivity_nm, hL, String.reduceEq, reduceIte]
    exact congrArg e (by ring)
  · simp only [cone_sensitivity_nm, hM, String.reduceEq, reduceIte]
    exact congrArg e (by ring)
  · simp only [cone_sensitivity_nm, hS, String.reduceEq, reduceIte]
    exact congrArg e (by ring)
  · intro ty hty
    simp only [List.mem_cons, List.not_mem_nil, or_false] at hty
    push_neg at hty
    obtain ⟨h1, h2, h3⟩ := hty
    simp only [cone_sensitivity_nm, hL, if_neg h1, if_neg h2, if_neg h3,
      String.reduceEq, reduceIte]
  · intro he ty
    simp only [cone_sensitivity_nm]
    refine he _ ?_
    have hsq := sq_nonneg ((lambda_nm -
      (if strUpper ty = "L" then (560:ℚ) else if strUpper ty = "M" then 530
        else if strUpper ty = "S" then 420 else 560)) /
      (if strUpper ty = "L" then (40:ℚ) else if strUpper ty = "M" then 40
        else if strUpper ty = "S" then 35 else 40))
    nlinarith [hsq]

/-- Witness for C8: the conjuncts with hypotheses, instantiated at the
constant-one exponential, wavelength 600 and subtype "x". -/
theorem c8_cone_sensitivity_spec_witness :
    cone_sensitivity_nm (fun _ => (1:ℚ)) 600 "x" =
      cone_sensitivity_nm (fun _ => (1:ℚ)) 600 "L" ∧
    0 < cone_sensitivity_nm (fun _ => (1:ℚ)) 600 "x" ∧
    cone_sensitivity_nm (fun _ => (1:ℚ)) 600 "x" ≤ 1 :=
  ⟨(c8_cone_sensitivity_spec (fun _ => 1) 600).2.2.2.1 "x" (by decide),
    (c8_cone_sensitivity_spec (fun _ => 1) 600).2.2.2.2
      (fun x _ => ⟨one_pos, le_refl 1⟩) "x"⟩

/-- C9: for every window with T > 0 and dt > 0, a photon retained by the
time filter receives a bin index k with 0 ≤ k ≤ ⌈T/dt⌉ - 1; in particular
k.toNat is below the preallocated first dimension ⌈T/dt⌉.toNat, so the
accumulation writes L_series[k] and Lr[k] are in bounds. -/
theorem c9_time_bin_in_bounds (t0 dt T t : ℚ) (hT : 0 < T) (hdt : 0 < dt)
    (k : ℤ) (h : time_bin_index (some t) t0 dt T = some k) :
    0 ≤ k ∧ k ≤ ⌈T / dt⌉ - 1 ∧ k.toNat < (⌈T / dt⌉).toNat := by
  simp only [time_bin_index] at h
  by_cases hcond : t < t0 ∨ t0 + T ≤ t
  · rw [if_pos hcond] at h
    cases h
  · rw [if_neg hcond] at h
    push_neg at hcond
    obtain ⟨h1, h2⟩ := hcond
    have hk := Option.some.inj h
    subst hk
    have h0 : (0:ℚ) ≤ (t - t0) / dt := div_nonneg (by linarith) hdt.le
    have hk0 : 0 ≤ ⌊(t - t0) / dt⌋ := Int.floor_nonneg.mpr h0
    have hlt : (t - t0) / dt < T / dt := by gcongr <;> linarith
    have hlt2 : ((⌊(t - t0) / dt⌋ : ℤ) : ℚ) < (⌈T / dt⌉ : ℚ) :=
      lt_of_le_of_lt (Int.floor_le _) (lt_of_lt_of_le hlt (Int.le_ceil _))
    have hlt3 : ⌊(t - t0) / dt⌋ < ⌈T / dt⌉ := by exact_mod_cast hlt2
    omega

/-- Witness for C9: t = 0.05 inside the window [0, 0.1) with dt = 0.01
gets bin 5 of 10. -/
theorem c9_time_bin_in_bounds_witness :
    (0:ℚ) < 1/10 ∧ (0:ℚ) < 1/100 ∧
    time_bin_index (some (5/100)) 0 (1/100) (1/10) = some 5 ∧
    (0 ≤ (5:ℤ) ∧ (5:ℤ) ≤ ⌈(1/10 : ℚ) / (1/100)⌉ - 1 ∧
      (5:ℤ).toNat < (⌈(1/10 : ℚ) / (1/100)⌉).toNat) := by
  have h : time_bin_index (some (5/100)) 0 (1/100) (1/10) = some 5 := by
    simp only [time_bin_index]
    rw [if_neg (by norm_num), show ((5:ℚ)/100 - 0) / (1/100) = ((5:ℤ):ℚ) by norm_num,
      Int.floor_intCast]
  exact ⟨by norm_num, by norm_num, h,
    c9_time_bin_in_bounds 0 (1/100) (1/10) (5/100) (by norm_num) (by norm_num) 5 h⟩

/-- Helper: dividing every list element by s divides the sum by s. -/
theorem sum_map_div (l : List ℚ) (s : ℚ) : (l.map (· / s)).sum = l.sum / s := by
  induction l with
  | nil => simp
  | cons a tl ih => simp [ih, add_div]

/-- Helper: a pointwise property of f holds for every element of a zipWith. -/
theorem forall_mem_zipWith {α β γ : Type} {f : α → β → γ} {P : γ → Prop}
    (h : ∀ a b, P (f a b)) :
    ∀ (l₁ : List α) (l₂ : List β), ∀ v ∈ List.zipWith f l₁ l₂, P v := by
  intro l₁
  induction l₁ with
  | nil => simp
  | cons a tl ih =>
    intro l₂ v hv
    cases l₂ with
    | nil => simp at hv
    | cons b tl₂ =>
      simp only [List.zipWith_cons_cons, List.mem_cons] at hv
      rcases hv with h1 | h2
      · subst h1; exact h a b
      · exact ih tl₂ v h2

/-- C3: for every photon position, every pair of nonempty receptor
coordinate arrays and every psf_sigma > 0, the spatial weights returned by
the PSF routine sum to exactly 1 (hence within the 1e-9 tolerance), as long
as the exponential is positive everywhere — which the real exp is. -/
theorem c3_psf_weights_sum_one (e : ℚ → ℚ) (px py : ℚ) (rx ry : List ℚ)
    (sigma_um : ℚ) (he : ∀ x : ℚ, 0 < e x) (hs : 0 < sigma_um)
    (hrx : rx ≠ []) (hry : ry ≠ []) :
    (gaussian_psf_weights e px py rx ry sigma_um).sum = 1 := by
  simp only [gaussian_psf_weights, if_neg (not_le.mpr hs)]
  set w := List.zipWith
    (fun a b => e (-(1/2) * ((a - px)^2 + (b - py)^2) / sigma_um^2)) rx ry with hw
  have hwpos : ∀ v ∈ w, 0 < v := by
    rw [hw]
    exact forall_mem_zipWith (fun a b => he _) rx ry
  have hwne : w ≠ [] := by
    rw [hw, Ne, List.zipWith_eq_nil_iff]
    push_neg
    exact ⟨hrx, hry⟩
  have hsum : 0 < w.sum := List.sum_pos w hwpos hwne
  rw [if_pos hsum, sum_map_div, div_self (ne_of_gt hsum)]

/-- Witness for C3: one receptor at the photon position, sigma 1, constant
exponential. -/
theorem c3_psf_weights_sum_one_witness :
    (∀ x : ℚ, 0 < (fun _ : ℚ => (1:ℚ)) x) ∧ (0:ℚ) < 1 ∧
    ([(0:ℚ)] ≠ ([] : List ℚ)) ∧
    (gaussian_psf_weights (fun _ => 1) 0 0 [0] [0] 1).sum = 1 :=
  ⟨fun _ => one_pos, one_pos, by simp,
    c3_psf_weights_sum_one (fun _ => 1) 0 0 [0] [0] 1 (fun _ => one_pos)
      one_pos (by simp) (by simp)⟩

/-! Order theory for the polar sort key. -/

/-- Helper: three-point cross-product identity. -/
theorem cross_id (a b c : ℚ × ℚ) :
    b.2 * cross a c = a.2 * cross b c + c.2 * cross a b := by
  simp only [cross]
  ring

/-- Helper: the cross product is antisymmetric. -/
theorem cross_antisymm (a b : ℚ × ℚ) : cross b a = -cross a b := by
  simp only [cross]
  ring

/-- Helper: within one open half-plane, nonstrict cross-product order with
one strict step composes to a strict step. -/
theorem cross_pos_trans {a b c : ℚ × ℚ}
    (hy : (a.2 < 0 ∧ b.2 < 0 ∧ c.2 < 0) ∨ (0 < a.2 ∧ 0 < b.2 ∧ 0 < c.2))
    (h1 : 0 ≤ cross a b) (h2 : 0 ≤ cross b c)
    (hs : 0 < cross a b ∨ 0 < cross b c) : 0 < cross a c := by
  have hid := cross_id a b c
  rcases hy with ⟨ha, hb, hc⟩ | ⟨ha, hb, hc⟩
  · have key : b.2 * cross a c < 0 := by
      rcases hs with hs | hs <;> nlinarith
    nlinarith
  · have key : 0 < b.2 * cross a c := by
      rcases hs with hs | hs <;> nlinarith
    nlinarith

/-- Helper: zero cross products compose through a point off the x-axis. -/
theorem cross_zero_trans {a b c : ℚ × ℚ} (hb : b.2 ≠ 0)
    (h1 : cross a b = 0) (h2 : cross b c = 0) : cross a c = 0 := by
  have hid := cross_id a b c
  rw [h1, h2] at hid
  simp only [mul_zero, add_zero] at hid
  rcases mul_eq_zero.mp hid with h | h
  · exact absurd h hb
  · exact h

/-- Helper: case enumeration of the angle class with its sign facts. -/
theorem angClass_sign (p : ℚ × ℚ) :
    (angClass p = 0 ∧ p.2 < 0) ∨ (angClass p = 1 ∧ p.2 = 0 ∧ 0 ≤ p.1) ∨
    (angClass p = 2 ∧ 0 < p.2) ∨ (angClass p = 3 ∧ p.2 = 0 ∧ p.1 < 0) := by
  unfold angClass
  split_ifs with h1 h2 h3
  · exact Or.inl ⟨rfl, h1⟩
  · exact Or.inr (Or.inl ⟨rfl, h2⟩)
  · exact Or.inr (Or.inr (Or.inl ⟨rfl, h3⟩))
  · refine Or.inr (Or.inr (Or.inr ⟨rfl, ?_, ?_⟩))
    · push_neg at h1 h3
      linarith
    · push_neg at h1 h2 h3
      have hz : p.2 = 0 := by linarith
      have := h2 hz
      linarith

/-- Helper: class 0 means the point is below the x-axis. -/
theorem class_zero_sign {p : ℚ × ℚ} (h : angClass p = 0) : p.2 < 0 := by
  rcases angClass_sign p with ⟨e, s⟩ | ⟨e, s⟩ | ⟨e, s⟩ | ⟨e, s⟩ <;>
    first | exact s | (exfalso; omega)

/-- Helper: class 1 means angle zero. -/
theorem class_one_sign {p : ℚ × ℚ} (h : angClass p = 1) : p.2 = 0 ∧ 0 ≤ p.1 := by
  rcases angClass_sign p with ⟨e, s⟩ | ⟨e, s⟩ | ⟨e, s⟩ | ⟨e, s⟩ <;>
    first | exact s | (exfalso; omega)

/-- Helper: class 2 means the point is above the x-axis. -/
theorem class_two_sign {p : ℚ × ℚ} (h : angClass p = 2) : 0 < p.2 := by
  rcases angClass_sign p with ⟨e, s⟩ | ⟨e, s⟩ | ⟨e, s⟩ | ⟨e, s⟩ <;>
    first | exact s | (exfalso; omega)

/-- Helper: class 3 means angle pi. -/
theorem class_three_sign {p : ℚ × ℚ} (h : angClass p = 3) : p.2 = 0 ∧ p.1 < 0 := by
  rcases angClass_sign p with ⟨e, s⟩ | ⟨e, s⟩ | ⟨e, s⟩ | ⟨e, s⟩ <;>
    first | exact s | (exfalso; omega)

/-- Helper: a nonzero cross product between same-class points forces them
both into one of the two open half-planes. -/
theorem same_class_cross_ne {a b : ℚ × ℚ} (h : angClass a = angClass b)
    (hc : cross a b ≠ 0) : (a.2 < 0 ∧ b.2 < 0) ∨ (0 < a.2 ∧ 0 < b.2) := by
  rcases angClass_sign a with ⟨e1, s1⟩ | ⟨e1, s1⟩ | ⟨e1, s1⟩ | ⟨e1, s1⟩ <;>
    rcases angClass_sign b with ⟨e2, s2⟩ | ⟨e2, s2⟩ | ⟨e2, s2⟩ | ⟨e2, s2⟩ <;>
      first
      | (exfalso; omega)
      | (exact Or.inl ⟨s1, s2⟩)
      | (exact Or.inr ⟨s1, s2⟩)
      | (exfalso
         apply hc
         simp only [cross, s1.1, s2.1]
         ring)

/-- Helper: transitivity of the lexsort key order. -/
theorem polarLe_trans {a b c : ℚ × ℚ} (h1 : polarLe a b) (h2 : polarLe b c) :
    polarLe a c := by
  rcases h1 with h1 | ⟨⟨he1, hx1⟩, hn1⟩
  · rcases h1 with h1 | ⟨he1, hx1⟩
    · -- class strictly increases from a to b
      rcases h2 with (h2 | ⟨he2, hx2⟩) | ⟨⟨he2, hx2⟩, hn2⟩ <;>
        exact Or.inl (Or.inl (by omega))
    · -- same class, strict cross step from a to b
      rcases h2 with (h2 | ⟨he2, hx2⟩) | ⟨⟨he2, hx2⟩, hn2⟩
      · exact Or.inl (Or.inl (by omega))
      · -- two strict cross steps inside one class
        refine Or.inl (Or.inr ⟨he1.trans he2, ?_⟩)
        rcases same_class_cross_ne he1 (ne_of_gt hx1) with ⟨s1, s2⟩ | ⟨s1, s2⟩
        · have s3 : c.2 < 0 := by
            rcases angClass_sign c with ⟨e, s⟩ | ⟨e, s⟩ | ⟨e, s⟩ | ⟨e, s⟩ <;>
              first | exact s | (exfalso; rcases angClass_sign b with
                ⟨f, u⟩ | ⟨f, u⟩ | ⟨f, u⟩ | ⟨f, u⟩ <;> first | omega | linarith)
          exact cross_pos_trans (Or.inl ⟨s1, s2, s3⟩) hx1.le hx2.le (Or.inl hx1)
        · have s3 : 0 < c.2 := by
            rcases angClass_sign c with ⟨e, s⟩ | ⟨e, s⟩ | ⟨e, s⟩ | ⟨e, s⟩ <;>
              first | exact s | (exfalso; rcases angClass_sign b with
                ⟨f, u⟩ | ⟨f, u⟩ | ⟨f, u⟩ | ⟨f, u⟩ <;> first | omega | linarith)
          exact cross_pos_trans (Or.inr ⟨s1, s2, s3⟩) hx1.le hx2.le (Or.inl hx1)
      · -- strict cross step then angle equality
        refine Or.inl (Or.inr ⟨he1.trans he2, ?_⟩)
        rcases same_class_cross_ne he1 (ne_of_gt hx1) with ⟨s1, s2⟩ | ⟨s1, s2⟩
        · have s3 : c.2 < 0 := by
            rcases angClass_sign c with ⟨e, s⟩ | ⟨e, s⟩ | ⟨e, s⟩ | ⟨e, s⟩ <;>
              first | exact s | (exfalso; rcases angClass_sign b with
                ⟨f, u⟩ | ⟨f, u⟩ | ⟨f, u⟩ | ⟨f, u⟩ <;> first | omega | linarith)
          exact cross_pos_trans (Or.inl ⟨s1, s2, s3⟩) hx1.le (le_of_eq hx2.symm)
            (Or.inl hx1)
        · have s3 : 0 < c.2 := by
            rcases angClass_sign c with ⟨e, s⟩ | ⟨e, s⟩ | ⟨e, s⟩ | ⟨e, s⟩ <;>
              first | exact s | (exfalso; rcases angClass_sign b with
                ⟨f, u⟩ | ⟨f, u⟩ | ⟨f, u⟩ | ⟨f, u⟩ <;> first | omega | linarith)
          exact cross_pos_trans (Or.inr ⟨s1, s2, s3⟩) hx1.le (le_of_eq hx2.symm)
            (Or.inl hx1)
  · -- angle equality from a to b
    rcases h2 with (h2 | ⟨he2, hx2⟩) | ⟨⟨he2, hx2⟩, hn2⟩
    · exact Or.inl (Or.inl (by omega))
    · -- angle equality then strict cross step
      refine Or.inl (Or.inr ⟨he1.trans he2, ?_⟩)
      rcases same_class_cross_ne he2 (ne_of_gt hx2) with ⟨s2, s3⟩ | ⟨s2, s3⟩
      · have s1 : a.2 < 0 := by
          rcases angClass_sign a with ⟨e, s⟩ | ⟨e, s⟩ | ⟨e, s⟩ | ⟨e, s⟩ <;>
            first | exact s | (exfalso; rcases angClass_sign b with
              ⟨f, u⟩ | ⟨f, u⟩ | ⟨f, u⟩ | ⟨f, u⟩ <;> first | omega | linarith)
        exact cross_pos_trans (Or.inl ⟨s1, s2, s3⟩) (le_of_eq hx1.symm) hx2.le
          (Or.inr hx2)
      · have s1 : 0 < a.2 := by
          rcases angClass_sign a with ⟨e, s⟩ | ⟨e, s⟩ | ⟨e, s⟩ | ⟨e, s⟩ <;>
            first | exact s | (exfalso; rcases angClass_sign b with
              ⟨f, u⟩ | ⟨f, u⟩ | ⟨f, u⟩ | ⟨f, u⟩ <;> first | omega | linarith)
        exact cross_pos_trans (Or.inr ⟨s1, s2, s3⟩) (le_of_eq hx1.symm) hx2.le
          (Or.inr hx2)
    · -- two angle equalities: compose, and compare radii
      refine Or.inr ⟨⟨he1.trans he2, ?_⟩, hn1.trans hn2⟩
      rcases angClass_sign b with ⟨e, s⟩ | ⟨e, s⟩ | ⟨e, s⟩ | ⟨e, s⟩
      · exact cross_zero_trans (ne_of_lt s) hx1 hx2
      · have ha := class_one_sign (he1.trans e)
        have hc := class_one_sign (by rw [← he2]; exact e)
        simp only [cross, ha.1, hc.1]
        ring
      · exact cross_zero_trans (ne_of_gt s) hx1 hx2
      · have ha := class_three_sign (he1.trans e)
        have hc := class_three_sign (by rw [← he2]; exact e)
        simp only [cross, ha.1, hc.1]
        ring

/-- Helper: totality of the lexsort key order. -/
theorem polarLe_total (a b : ℚ × ℚ) : polarLe a b ∨ polarLe b a := by
  rcases lt_trichotomy (angClass a) (angClass b) with h | h | h
  · exact Or.inl (Or.inl (Or.inl h))
  · rcases lt_trichotomy (cross a b) 0 with hx | hx | hx
    · refine Or.inr (Or.inl (Or.inr ⟨h.symm, ?_⟩))
      rw [cross_antisymm]
      linarith
    · rcases le_total (normSq a) (normSq b) with hn | hn
      · exact Or.inl (Or.inr ⟨⟨h, hx⟩, hn⟩)
      · refine Or.inr (Or.inr ⟨⟨h.symm, ?_⟩, hn⟩)
        rw [cross_antisymm, hx, neg_zero]
    · exact Or.inl (Or.inl (Or.inr ⟨h, hx⟩))
  · exact Or.inr (Or.inl (Or.inl h))

/-- Helper: Bool-level transitivity of the sort comparator. -/
theorem polarLeB_trans : ∀ (a b c : ℚ × ℚ),
    polarLeB a b → polarLeB b c → polarLeB a c := by
  intro a b c h1 h2
  simp only [polarLeB, decide_eq_true_eq] at *
  exact polarLe_trans h1 h2

/-- Helper: Bool-level totality of the sort comparator. -/
theorem polarLeB_total : ∀ (a b : ℚ × ℚ), polarLeB a b || polarLeB b a := by
  intro a b
  simp only [polarLeB, Bool.or_eq_true, decide_eq_true_eq]
  exact polarLe_total a b

/-- C5 counterexample: the claim "coordinates are sorted by polar angle
then radius measured from the patch center" fails at the concrete call
with grid points (-1,0) and (1,0), radius 2, pitch 1, no jitter and center
(4,0): the returned coordinates are [(3,0), (5,0)] (ordered by angle from
the origin), but measured from the center (4,0) their angles are pi and 0,
a strictly decreasing sweep. -/
theorem c5_counterexample :
    ¬ (make_hex_circular_patch [(-1, 0), (1, 0)] [] 2 1 0 none
        (4, 0)).coords.Pairwise (polarLeFrom (4, 0)) := by
  have hclass3 : angClass ((3:ℚ) - 4, (0:ℚ) - 0) = 3 := by
    simp only [angClass]
    norm_num
  have hclass1 : angClass ((5:ℚ) - 4, (0:ℚ) - 0) = 1 := by
    simp only [angClass]
    norm_num
  have hnot : ¬ polarLeFrom (4, 0) ((3:ℚ), (0:ℚ)) ((5:ℚ), (0:ℚ)) := by
    simp only [polarLeFrom, polarLe, angLt, angEq]
    rw [hclass3, hclass1]
    rintro ((h | ⟨h, -⟩) | ⟨⟨h, -⟩, -⟩) <;> omega
  have hpair : List.Pairwise (fun a b => polarLeB a b = true)
      [((3:ℚ), (0:ℚ)), (5, 0)] := by
    refine List.Pairwise.cons ?_ (List.Pairwise.cons (by simp) List.Pairwise.nil)
    intro b hb
    rw [List.mem_singleton] at hb
    subst hb
    simp only [polarLeB, decide_eq_true_eq]
    refine Or.inr ⟨⟨?_, ?_⟩, ?_⟩
    · simp only [angClass]
      norm_num
    · simp only [cross]
      norm_num
    · simp only [normSq]
      norm_num
  have hcoords : (make_hex_circular_patch [(-1, 0), (1, 0)] [] 2 1 0 none
      (4, 0)).coords = [((3:ℚ), (0:ℚ)), (5, 0)] := by
    unfold make_hex_circular_patch
    rw [if_neg (by norm_num)]
    simp only [meanQ]
    norm_num [List.filter]
    rw [List.mergeSort_of_sorted hpair]
  rw [hcoords]
  intro hp
  rw [List.pairwise_cons] at hp
  exact hnot (hp.1 _ (by simp))

/-- C5 amended: for every HexPatch produced by make_hex_circular_patch
(any grid, noise, radius, pitch, jitter, seed and center), the coordinate
array is sorted by polar angle first and radius second, where angle and
radius are measured from the origin — which coincides with the patch
center only when the center is (0,0). -/
theorem c5_coords_sorted_from_origin (grid noise : List (ℚ × ℚ))
    (radius_um pitch_um jitter_um : ℚ) (seed : Option ℤ) (center : ℚ × ℚ) :
    (make_hex_circular_patch grid noise radius_um pitch_um jitter_um seed
      center).coords.Pairwise polarLe := by
  have key : ∀ l : List (ℚ × ℚ), (l.mergeSort polarLeB).Pairwise polarLe :=
    fun l => (List.sorted_mergeSort polarLeB_trans polarLeB_total l).imp
      (fun hab => by simpa only [polarLeB, decide_eq_true_eq] using hab)
  unfold make_hex_circular_patch
  split_ifs with h
  · simp
  · exact key _
  · exact key _

/-- C6: with jitter 0 and positive pitch, every coordinate of the returned
patch lies within the radius of the center (stated with squared Euclidean
distance, equivalent for a nonnegative radius), and a nonpositive radius
yields an empty coordinate set rather than an error. -/
theorem c6_patch_within_radius (grid : List (ℚ × ℚ)) (radius_um pitch_um : ℚ)
    (seed : Option ℤ) (center : ℚ × ℚ) (hpitch : 0 < pitch_um) :
    (∀ p ∈ (make_hex_circular_patch grid [] radius_um pitch_um 0 seed
        center).coords,
      (p.1 - center.1) ^ 2 + (p.2 - center.2) ^ 2 ≤ radius_um ^ 2) ∧
    (radius_um ≤ 0 → (make_hex_circular_patch grid [] radius_um pitch_um 0
        seed center).coords = []) := by
  constructor
  · intro p hp
    by_cases h : radius_um ≤ 0
    · unfold make_hex_circular_patch at hp
      rw [if_pos h] at hp
      simp at hp
    · have hco : (make_hex_circular_patch grid [] radius_um pitch_um 0 seed
          center).coords =
          List.mergeSort (((grid.map (fun q =>
              (q.1 - meanQ (grid.map Prod.fst),
               q.2 - meanQ (grid.map Prod.snd)))).filter
            (fun q => q.1 ^ 2 + q.2 ^ 2 ≤ radius_um ^ 2)).map
            (fun q => (q.1 + center.1, q.2 + center.2))) polarLeB := by
        unfold make_hex_circular_patch
        rw [if_neg h]
        norm_num
      rw [hco, List.mem_mergeSort, List.mem_map] at hp
      obtain ⟨q, hq, rfl⟩ := hp
      rw [List.mem_filter] at hq
      have hq2 : q.1 ^ 2 + q.2 ^ 2 ≤ radius_um ^ 2 := by
        have h2 := hq.2
        simpa using h2
      calc (q.1 + center.1 - center.1) ^ 2 + (q.2 + center.2 - center.2) ^ 2
          = q.1 ^ 2 + q.2 ^ 2 := by ring
        _ ≤ radius_um ^ 2 := hq2
  · intro h
    unfold make_hex_circular_patch
    rw [if_pos h]

/-- Witness for C6 at pitch 1 and radius -1: the patch is empty. -/
theorem c6_patch_within_radius_witness :
    (0:ℚ) < 1 ∧ (-1:ℚ) ≤ 0 ∧
    (make_hex_circular_patch [((0:ℚ), (0:ℚ))] [] (-1) 1 0 none
      (0, 0)).coords = [] :=
  ⟨one_pos, by norm_num,
    (c6_patch_within_radius [((0:ℚ), (0:ℚ))] (-1) 1 none (0, 0) one_pos).2
      (by norm_num)⟩

/-! Accumulation-loop lemmas for the photon driver. -/

/-- Helper: one cone-loop iteration, as a conditional on retention: a
retained photon raises NameError, any other photon is a no-op. -/
theorem conesLoopStep_char (T dt t0 : ℚ) (st : SeriesMap) (ph : Photon) :
    conesLoopStep T dt t0 st ph =
      if retainedB T dt t0 ph then
        Except.error "NameError: name cone_sensitivity_nm is not defined"
      else Except.ok st := by
  unfold conesLoopStep retainedB
  cases htb : time_bin_index (some (ph.t.getD t0)) t0 dt T with
  | none => rfl
  | some k =>
    rcases hx : ph.x with _ | px <;> rcases hy : ph.y with _ | py <;>
      simp [hx, hy]

/-- Helper: the cone loop leaves the state untouched, and aborts with
NameError exactly when some photon is retained. -/
theorem conesLoop_char (T dt t0 : ℚ) : ∀ (l : List Photon) (s : SeriesMap),
    l.foldlM (conesLoopStep T dt t0) s =
      if l.any (retainedB T dt t0) then
        Except.error "NameError: name cone_sensitivity_nm is not defined"
      else Except.ok s := by
  intro l
  induction l with
  | nil => intro s; rfl
  | cons ph tl ih =>
    intro s
    rw [List.foldlM_cons, conesLoopStep_char, List.any_cons]
    by_cases hr : retainedB T dt t0 ph = true
    · rw [if_pos hr]
      have hall : (retainedB T dt t0 ph || tl.any (retainedB T dt t0)) =
          true := by
        rw [hr, Bool.true_or]
      rw [if_pos hall]
      rfl
    · have hf : retainedB T dt t0 ph = false := by
        cases hb : retainedB T dt t0 ph
        · rfl
        · exact absurd hb hr
      rw [if_neg hr]
      have hall : (retainedB T dt t0 ph || tl.any (retainedB T dt t0)) =
          tl.any (retainedB T dt t0) := by
        rw [hf, Bool.false_or]
      rw [hall]
      have hbind : (Except.ok s >>= fun s' =>
          tl.foldlM (conesLoopStep T dt t0) s') =
          tl.foldlM (conesLoopStep T dt t0) s := rfl
      rw [hbind, ih s]

/-- Helper: one rod-loop iteration, split into its IndexError condition
and its error-free effect. -/
theorem rodsStep_char (e : ℚ → ℚ) (rx ry : List ℚ) (n : ℕ)
    (T dt t0 sigma_um : ℚ) (st : Mat) (ph : Photon) :
    rodsStep e rx ry n T dt t0 sigma_um st ph =
      if rodsErrB n T dt t0 ph then Except.error "IndexError"
      else Except.ok (rodsPure e rx ry n T dt t0 sigma_um st ph) := by
  unfold rodsStep rodsErrB rodsPure rodsUpdOpt
  cases htb : time_bin_index (some (ph.t.getD t0)) t0 dt T with
  | none => rfl
  | some k =>
    rcases hx : ph.x with _ | px
    · rfl
    · rcases hy : ph.y with _ | py
      · rfl
      · by_cases hin : 0 ≤ rodsWrapIdx n k ∧ rodsWrapIdx n k < (n : ℤ)
        · simp [hin]
        · simp [hin]

/-- Helper: the rod loop aborts with IndexError exactly when some photon
triggers an out-of-range write, and otherwise folds the pure updates. -/
theorem rodsLoop_char (e : ℚ → ℚ) (rx ry : List ℚ) (n : ℕ)
    (T dt t0 sigma_um : ℚ) : ∀ (l : List Photon) (s : Mat),
    l.foldlM (rodsStep e rx ry n T dt t0 sigma_um) s =
      if l.any (rodsErrB n T dt t0) then Except.error "IndexError"
      else Except.ok (l.foldl (rodsPure e rx ry n T dt t0 sigma_um) s) := by
  intro l
  induction l with
  | nil => intro s; rfl
  | cons ph tl ih =>
    intro s
    rw [List.foldlM_cons, rodsStep_char, List.any_cons, List.foldl_cons]
    by_cases hr : rodsErrB n T dt t0 ph = true
    · rw [if_pos hr]
      have hall : (rodsErrB n T dt t0 ph || tl.any (rodsErrB n T dt t0)) =
          true := by
        rw [hr, Bool.true_or]
      rw [if_pos hall]
      rfl
    · have hf : rodsErrB n T dt t0 ph = false := by
        cases hb : rodsErrB n T dt t0 ph
        · rfl
        · exact absurd hb hr
      rw [if_neg hr]
      have hall : (rodsErrB n T dt t0 ph || tl.any (rodsErrB n T dt t0)) =
          tl.any (rodsErrB n T dt t0) := by
        rw [hf, Bool.false_or]
      rw [hall]
      have hbind : (Except.ok (rodsPure e rx ry n T dt t0 sigma_um s ph) >>=
          fun s' => tl.foldlM (rodsStep e rx ry n T dt t0 sigma_um) s') =
          tl.foldlM (rodsStep e rx ry n T dt t0 sigma_um)
            (rodsPure e rx ry n T dt t0 sigma_um s ph) := rfl
      rw [hbind, ih]

/-- Helper: closed form of the cone builder. -/
theorem build_cones_eq (e : ℚ → ℚ) (photons : List Photon)
    (cone_positions : PosMap) (T dt t0 sigma_um pc : ℚ) :
    build_L_series_for_cones e photons cone_positions T dt t0 sigma_um pc =
      if dt = 0 ∨ ⌈T / dt⌉ < 0 then Except.error "invalid step count"
      else if photons.any (retainedB T dt t0) then
        Except.error "NameError: name cone_sensitivity_nm is not defined"
      else (["S", "M", "L"]).foldlM (normStepCones pc)
        (cone_positions.map (fun kv =>
          (kv.1, zerosMat (⌈T / dt⌉).toNat kv.2.length))) := by
  simp only [build_L_series_for_cones]
  by_cases hg : dt = 0 ∨ ⌈T / dt⌉ < 0
  · rw [if_pos hg, if_pos hg]
  · rw [if_neg hg, if_neg hg, conesLoop_char]
    by_cases hany : photons.any (retainedB T dt t0) = true
    · rw [if_pos hany, if_pos hany]
      rfl
    · rw [if_neg hany, if_neg hany]
      rfl

/-- Helper: closed form of the rod builder. -/
theorem build_rods_eq (e : ℚ → ℚ) (photons : List Photon)
    (rod_positions : List (ℚ × ℚ)) (T dt t0 sigma_um pr : ℚ) :
    build_L_series_for_rods e photons rod_positions T dt t0 sigma_um pr =
      if dt = 0 ∨ ⌈T / dt⌉ < 0 then Except.error "invalid step count"
      else if rod_positions.length = 0 then
        Except.ok (zerosMat (⌈T / dt⌉).toNat rod_positions.length)
      else if photons.any (rodsErrB (⌈T / dt⌉).toNat T dt t0) then
        Except.error "IndexError"
      else Except.ok (normMat (photons.foldl (rodsPure e
          (rod_positions.map Prod.fst) (rod_positions.map Prod.snd)
          (⌈T / dt⌉).toNat T dt t0 sigma_um)
        (zerosMat (⌈T / dt⌉).toNat rod_positions.length))
        (pr + 1/1000000000000)) := by
  simp only [build_L_series_for_rods]
  by_cases hg : dt = 0 ∨ ⌈T / dt⌉ < 0
  · rw [if_pos hg, if_pos hg]
  · rw [if_neg hg, if_neg hg]
    by_cases hN : rod_positions.length = 0
    · rw [if_pos hN, if_pos hN]
    · rw [if_neg hN, if_neg hN, rodsLoop_char]
      by_cases hany : photons.any (rodsErrB (⌈T / dt⌉).toNat T dt t0) = true
      · rw [if_pos hany, if_pos hany]
        rfl
      · rw [if_neg hany, if_neg hany]
        rfl

/-- Helper: a photon that is out of window or misses a spatial coordinate
is not retained by the cone loop. -/
theorem disc_not_retained (T dt t0 : ℚ) (ph : Photon)
    (h : (∃ tv, ph.t = some tv ∧ (tv < t0 ∨ t0 + T ≤ tv)) ∨
      ph.x = none ∨ ph.y = none) :
    retainedB T dt t0 ph = false := by
  unfold retainedB
  rcases h with ⟨tv, ht, hw⟩ | hx | hy
  · rw [ht]
    simp only [Option.getD_some, time_bin_index, if_pos hw]
  · cases htb : time_bin_index (some (ph.t.getD t0)) t0 dt T with
    | none => rfl
    | some k =>
      rw [hx]
      rfl
  · cases htb : time_bin_index (some (ph.t.getD t0)) t0 dt T with
    | none => rfl
    | some k =>
      rw [hy]
      exact Bool.and_false _

/-- Helper: such a photon triggers no rod-loop IndexError. -/
theorem disc_rods_no_err (n : ℕ) (T dt t0 : ℚ) (ph : Photon)
    (h : (∃ tv, ph.t = some tv ∧ (tv < t0 ∨ t0 + T ≤ tv)) ∨
      ph.x = none ∨ ph.y = none) :
    rodsErrB n T dt t0 ph = false := by
  unfold rodsErrB
  rcases h with ⟨tv, ht, hw⟩ | hx | hy
  · rw [ht]
    simp only [Option.getD_some, time_bin_index, if_pos hw]
  · cases htb : time_bin_index (some (ph.t.getD t0)) t0 dt T with
    | none => rfl
    | some k =>
      rw [hx]
  · cases htb : time_bin_index (some (ph.t.getD t0)) t0 dt T with
    | none => rfl
    | some k =>
      rw [hy]
      rcases ph.x with _ | xv <;> rfl

/-- Helper: such a photon performs no rod-loop update. -/
theorem disc_rods_no_upd (e : ℚ → ℚ) (rx ry : List ℚ) (n : ℕ)
    (T dt t0 sigma_um : ℚ) (ph : Photon)
    (h : (∃ tv, ph.t = some tv ∧ (tv < t0 ∨ t0 + T ≤ tv)) ∨
      ph.x = none ∨ ph.y = none) :
    rodsUpdOpt e rx ry n T dt t0 sigma_um ph = none := by
  unfold rodsUpdOpt
  rcases h with ⟨tv, ht, hw⟩ | hx | hy
  · rw [ht]
    simp only [Option.getD_some, time_bin_index, if_pos hw]
  · cases htb : time_bin_index (some (ph.t.getD t0)) t0 dt T with
    | none => rfl
    | some k =>
      rw [hx]
  · cases htb : time_bin_index (some (ph.t.getD t0)) t0 dt T with
    | none => rfl
    | some k =>
      rw [hy]
      rcases ph.x with _ | xv <;> rfl

/-- C1: a photon whose arrival time lies outside the window, or which
misses a spatial coordinate, contributes nothing: inserting it anywhere in
the photon list leaves both aggregator outputs unchanged. -/
theorem c1_discarded_photons_no_effect (e : ℚ → ℚ)
    (cone_positions : PosMap) (rod_positions : List (ℚ × ℚ))
    (T dt t0 sigma_um pc pr : ℚ) (l1 l2 : List Photon) (ph : Photon)
    (h : (∃ tv, ph.t = some tv ∧ (tv < t0 ∨ t0 + T ≤ tv)) ∨
      ph.x = none ∨ ph.y = none) :
    build_L_series_for_cones e (l1 ++ ph :: l2) cone_positions T dt t0
        sigma_um pc =
      build_L_series_for_cones e (l1 ++ l2) cone_positions T dt t0
        sigma_um pc ∧
    build_L_series_for_rods e (l1 ++ ph :: l2) rod_positions T dt t0
        sigma_um pr =
      build_L_series_for_rods e (l1 ++ l2) rod_positions T dt t0 sigma_um pr := by
  have hret := disc_not_retained T dt t0 ph h
  have herr := disc_rods_no_err (⌈T / dt⌉).toNat T dt t0 ph h
  have hupd := disc_rods_no_upd e (rod_positions.map Prod.fst)
    (rod_positions.map Prod.snd) (⌈T / dt⌉).toNat T dt t0 sigma_um ph h
  constructor
  · have hany : (l1 ++ ph :: l2).any (retainedB T dt t0) =
        (l1 ++ l2).any (retainedB T dt t0) := by
      simp [List.any_append, List.any_cons, hret]
    rw [build_cones_eq, build_cones_eq, hany]
  · have hany : (l1 ++ ph :: l2).any (rodsErrB (⌈T / dt⌉).toNat T dt t0) =
        (l1 ++ l2).any (rodsErrB (⌈T / dt⌉).toNat T dt t0) := by
      simp [List.any_append, List.any_cons, herr]
    have hskip : ∀ s : Mat, rodsPure e (rod_positions.map Prod.fst)
        (rod_positions.map Prod.snd) (⌈T / dt⌉).toNat T dt t0 sigma_um s ph
        = s := by
      intro s
      unfold rodsPure
      rw [hupd]
    have hfold : (l1 ++ ph :: l2).foldl (rodsPure e
        (rod_positions.map Prod.fst) (rod_positions.map Prod.snd)
        (⌈T / dt⌉).toNat T dt t0 sigma_um)
        (zerosMat (⌈T / dt⌉).toNat rod_positions.length) =
      (l1 ++ l2).foldl (rodsPure e (rod_positions.map Prod.fst)
        (rod_positions.map Prod.snd) (⌈T / dt⌉).toNat T dt t0 sigma_um)
        (zerosMat (⌈T / dt⌉).toNat rod_positions.length) := by
      rw [List.foldl_append, List.foldl_append, List.foldl_cons, hskip]
    rw [build_rods_eq, build_rods_eq, hany, hfold]

/-- Witness for C1: a photon at t = 7, outside the window [0, 1), is
dropped from a singleton list. -/
theorem c1_discarded_photons_no_effect_witness :
    ((∃ tv, (Photon.mk 500 (some 0) (some 0) (some 7)).t = some tv ∧
      (tv < 0 ∨ 0 + 1 ≤ tv)) ∨
      (Photon.mk 500 (some 0) (some 0) (some 7)).x = none ∨
      (Photon.mk 500 (some 0) (some 0) (some 7)).y = none) ∧
    build_L_series_for_cones (fun _ => 1)
        ([] ++ Photon.mk 500 (some 0) (some 0) (some 7) :: [])
        [("S", [(0, 0)])] 1 1 0 1 50 =
      build_L_series_for_cones (fun _ => 1) ([] ++ [])
        [("S", [(0, 0)])] 1 1 0 1 50 ∧
    build_L_series_for_rods (fun _ => 1)
        ([] ++ Photon.mk 500 (some 0) (some 0) (some 7) :: [])
        [(0, 0)] 1 1 0 1 10 =
      build_L_series_for_rods (fun _ => 1) ([] ++ []) [(0, 0)] 1 1 0 1 10 := by
  have h : (∃ tv, (Photon.mk (500:ℚ) (some 0) (some 0) (some 7)).t = some tv ∧
      ((tv:ℚ) < 0 ∨ 0 + 1 ≤ tv)) ∨
      (Photon.mk (500:ℚ) (some 0) (some 0) (some 7)).x = none ∨
      (Photon.mk (500:ℚ) (some 0) (some 0) (some 7)).y = none :=
    Or.inl ⟨7, rfl, Or.inr (by norm_num)⟩
  exact ⟨h, c1_discarded_photons_no_effect (fun _ => 1) [("S", [(0, 0)])]
    [(0, 0)] 1 1 0 1 50 10 [] [] (Photon.mk 500 (some 0) (some 0) (some 7)) h⟩

/-- Helper: two elementwise additions into one row commute. -/
theorem rowAdd_right_comm (r v w : List ℚ) :
    rowAdd (rowAdd r v) w = rowAdd (rowAdd r w) v := by
  induction r generalizing v w with
  | nil => simp [rowAdd]
  | cons a r ih =>
    cases v with
    | nil => cases w <;> simp [rowAdd]
    | cons b v =>
      cases w with
      | nil => simp [rowAdd]
      | cons c w =>
        simp only [rowAdd, List.zipWith_cons_cons] at *
        refine congrArg₂ List.cons (by ring) (ih v w)

/-- Helper: two row-targeted additions into one matrix commute. -/
theorem updAdd_right_comm (m : Mat) (k1 k2 : ℤ) (v1 v2 : List ℚ) :
    updAdd (updAdd m k1 v1) k2 v2 = updAdd (updAdd m k2 v2) k1 v1 := by
  unfold updAdd
  by_cases hij : k1.toNat = k2.toNat
  · rw [hij]
    by_cases hlen : k2.toNat < m.length
    · simp only [List.getD_eq_getElem?_getD, List.getElem?_set_self hlen,
        List.length_set, Option.getD_some, List.set_set]
      rw [rowAdd_right_comm]
    · push_neg at hlen
      have h4 : ∀ r : List ℚ, List.set m k2.toNat r = m := fun r =>
        List.set_eq_of_length_le hlen
      simp only [h4]
  · simp only [List.getD_eq_getElem?_getD, List.getElem?_set_ne hij,
      List.getElem?_set_ne (fun hh => hij hh.symm), List.length_set]
    rw [List.set_comm _ _ _ hij]

/-- Helper: a permutation preserves the Boolean any. -/
theorem perm_any_eq {α : Type} {l l' : List α} (hp : l.Perm l')
    (f : α → Bool) : l.any f = l'.any f := by
  have hiff : l.any f = true ↔ l'.any f = true := by
    rw [List.any_eq_true, List.any_eq_true]
    constructor
    · rintro ⟨x, hx, hfx⟩
      exact ⟨x, hp.mem_iff.mp hx, hfx⟩
    · rintro ⟨x, hx, hfx⟩
      exact ⟨x, hp.mem_iff.mpr hx, hfx⟩
  cases hb : l.any f with
  | false =>
    cases hb' : l'.any f with
    | false => rfl
    | true =>
      have hcontra := hiff.mpr hb'
      rw [hb] at hcontra
      exact absurd hcontra (by decide)
  | true => exact (hiff.mp hb).symm

/-- Helper: the error-free rod update is right-commutative. -/
theorem rodsPure_right_comm (e : ℚ → ℚ) (rx ry : List ℚ) (n : ℕ)
    (T dt t0 sigma_um : ℚ) (st : Mat) (ph1 ph2 : Photon) :
    rodsPure e rx ry n T dt t0 sigma_um
        (rodsPure e rx ry n T dt t0 sigma_um st ph1) ph2 =
      rodsPure e rx ry n T dt t0 sigma_um
        (rodsPure e rx ry n T dt t0 sigma_um st ph2) ph1 := by
  unfold rodsPure
  cases h1 : rodsUpdOpt e rx ry n T dt t0 sigma_um ph1 with
  | none => cases h2 : rodsUpdOpt e rx ry n T dt t0 sigma_um ph2 <;> rfl
  | some iv1 =>
    cases h2 : rodsUpdOpt e rx ry n T dt t0 sigma_um ph2 with
    | none => rfl
    | some iv2 => exact updAdd_right_comm st iv1.1 iv2.1 iv1.2 iv2.2

/-- C4: reordering the photon list does not change either aggregator
output (the accumulation is commutative and associative). -/
theorem c4_permutation_invariance (e : ℚ → ℚ) (cone_positions : PosMap)
    (rod_positions : List (ℚ × ℚ)) (T dt t0 sigma_um pc pr : ℚ)
    (l1 l2 : List Photon) (hperm : l1.Perm l2) :
    build_L_series_for_cones e l1 cone_positions T dt t0 sigma_um pc =
      build_L_series_for_cones e l2 cone_positions T dt t0 sigma_um pc ∧
    build_L_series_for_rods e l1 rod_positions T dt t0 sigma_um pr =
      build_L_series_for_rods e l2 rod_positions T dt t0 sigma_um pr := by
  constructor
  · rw [build_cones_eq, build_cones_eq, perm_any_eq hperm]
  · haveI : RightCommutative (rodsPure e (rod_positions.map Prod.fst)
        (rod_positions.map Prod.snd) (⌈T / dt⌉).toNat T dt t0 sigma_um) :=
      ⟨fun st ph1 ph2 =>
        rodsPure_right_comm e _ _ _ T dt t0 sigma_um st ph1 ph2⟩
    have hfold : l1.foldl (rodsPure e (rod_positions.map Prod.fst)
        (rod_positions.map Prod.snd) (⌈T / dt⌉).toNat T dt t0 sigma_um)
        (zerosMat (⌈T / dt⌉).toNat rod_positions.length) =
      l2.foldl (rodsPure e (rod_positions.map Prod.fst)
        (rod_positions.map Prod.snd) (⌈T / dt⌉).toNat T dt t0 sigma_um)
        (zerosMat (⌈T / dt⌉).toNat rod_positions.length) :=
      hperm.foldl_eq _
    rw [build_rods_eq, build_rods_eq, perm_any_eq hperm, hfold]

/-- Witness for C4: swapping a two-photon list. -/
theorem c4_permutation_invariance_witness :
    ([Photon.mk 500 (some 0) (some 0) (some 0),
      Photon.mk 600 (some 1) (some 1) (some 0)].Perm
     [Photon.mk 600 (some 1) (some 1) (some 0),
      Photon.mk 500 (some 0) (some 0) (some 0)]) ∧
    build_L_series_for_cones (fun _ => 1)
        [Photon.mk 500 (some 0) (some 0) (some 0),
         Photon.mk 600 (some 1) (some 1) (some 0)]
        [("S", [(0, 0)])] 1 1 0 1 50 =
      build_L_series_for_cones (fun _ => 1)
        [Photon.mk 600 (some 1) (some 1) (some 0),
         Photon.mk 500 (some 0) (some 0) (some 0)]
        [("S", [(0, 0)])] 1 1 0 1 50 ∧
    build_L_series_for_rods (fun _ => 1)
        [Photon.mk 500 (some 0) (some 0) (some 0),
         Photon.mk 600 (some 1) (some 1) (some 0)] [(0, 0)] 1 1 0 1 10 =
      build_L_series_for_rods (fun _ => 1)
        [Photon.mk 600 (some 1) (some 1) (some 0),
         Photon.mk 500 (some 0) (some 0) (some 0)] [(0, 0)] 1 1 0 1 10 := by
  have hp : [Photon.mk (500:ℚ) (some 0) (some 0) (some 0),
      Photon.mk 600 (some 1) (some 1) (some 0)].Perm
      [Photon.mk 600 (some 1) (some 1) (some 0),
       Photon.mk 500 (some 0) (some 0) (some 0)] := List.Perm.swap _ _ _
  refine ⟨hp, c4_permutation_invariance (fun _ => 1) [("S", [(0, 0)])]
    [(0, 0)] 1 1 0 1 50 10 _ _ hp⟩

/-- C2 (refuted: code bug). The claim asserts every entry of every output
array is in [0, 1]. In the source, the rod normalization
(photon_driver.py line 177) divides by photons_per_L1 + 1e-12; at
photons_per_L1 = -1e-12 the divisor is exactly 0.0, each zero entry of the
accumulated array is computed as 0.0/0.0 = NaN, and np.clip propagates
NaN, so the returned array's entries are NaN ∉ [0, 1] (the cone
normalization at lines 137-140 has the same divisor). This theorem
evaluates the embedded builder at that failing input: the epsilon guard
cancels to a zero divisor and the returned entry is clipQ (0 / 0) — the
clip of the division 0/0 that IEEE arithmetic turns into NaN. Only the
total ℚ convention 0/0 = 0 lands the final value back inside [0, 1]; the
floating-point program has no such convention, so the bound fails. -/
theorem c2_epsilon_guard_defeated :
    (-(1/1000000000000) : ℚ) + 1/1000000000000 = 0 ∧
    build_L_series_for_rods (fun _ => 1) [] [(0, 0)] 1 1 0 1
        (-(1/1000000000000)) =
      Except.ok [[clipQ (0 / (-(1/1000000000000) + 1/1000000000000))]] := by
  constructor
  · norm_num
  · have hc : ⌈(1:ℚ) / 1⌉ = 1 := by norm_num
    rw [build_rods_eq, if_neg (by norm_num [hc]), hc]
    rfl

/-- Helper: an entry whose key differs from the updated one is untouched. -/
theorem mem_updSeries_of_ne {st : SeriesMap} {key : String} {f : Mat → Mat}
    {kv : String × Mat} (hm : kv ∈ updSeries st key f) (h : kv.1 ≠ key) :
    kv ∈ st := by
  unfold updSeries at hm
  rw [List.mem_map] at hm
  obtain ⟨kv', hkv', heq⟩ := hm
  by_cases h1 : kv'.1 = key
  · rw [if_pos h1] at heq
    subst heq
    exact absurd h1 h
  · rw [if_neg h1] at heq
    subst heq
    exact hkv'

/-- Helper: the zero matrix is all zeros. -/
theorem zerosMat_zero (n N : ℕ) :
    ∀ row ∈ zerosMat n N, ∀ v ∈ row, v = 0 := by
  intro row hrow v hv
  unfold zerosMat at hrow
  rw [List.eq_of_mem_replicate hrow] at hv
  exact List.eq_of_mem_replicate hv

/-- Helper: a successful bind in the Except monad splits. -/
theorem except_bind_ok {A B : Type} (x : Except String A)
    (f : A → Except String B) (b : B) :
    (x >>= f) = .ok b ↔ ∃ a, x = .ok a ∧ f a = .ok b := by
  cases x with
  | error err =>
    constructor
    · intro h
      exact absurd h (by simp [Bind.bind, Except.bind])
    · rintro ⟨a, ha, -⟩
      cases ha
  | ok a =>
    constructor
    · intro h
      exact ⟨a, rfl, h⟩
    · rintro ⟨a', ha, hf⟩
      cases ha
      exact hf

/-- Helper: anatomy of a successful normalization step. -/
theorem normStep_ok {p : ℚ} {st : SeriesMap} {k : String} {st' : SeriesMap}
    (h : normStepCones p st k = .ok st') :
    ∃ m, st.lookup k = some m ∧
      ((matSize m ≠ 0 ∧
        st' = updSeries st k (fun mm => normMat mm (p + 1/1000000000000))) ∨
       (matSize m = 0 ∧ st' = st)) := by
  unfold normStepCones at h
  split at h
  · cases h
  · rename_i m hl
    refine ⟨m, hl, ?_⟩
    split at h
    · rename_i hsz
      exact Or.inl ⟨hsz, (Except.ok.inj h).symm⟩
    · rename_i hsz
      push_neg at hsz
      exact Or.inr ⟨hsz, (Except.ok.inj h).symm⟩

/-- Helper: a normalization step leaves entries at other keys in place. -/
theorem normStep_mem_back {p : ℚ} {st : SeriesMap} {k : String}
    {st' : SeriesMap} (h : normStepCones p st k = .ok st')
    {kv : String × Mat} (hkv : kv ∈ st') (hne : kv.1 ≠ k) : kv ∈ st := by
  obtain ⟨m0, -, hbr⟩ := normStep_ok h
  rcases hbr with ⟨-, rfl⟩ | ⟨-, rfl⟩
  · exact mem_updSeries_of_ne hkv hne
  · exact hkv

/-- Helper: a keyed map of a list is pointwise related to it. -/
theorem forall₂_map_left {A B : Type} {R : A → B → Prop} (f : B → A)
    (l : List B) (h : ∀ x ∈ l, R (f x) x) : List.Forall₂ R (l.map f) l := by
  induction l with
  | nil => exact List.Forall₂.nil
  | cons x tl ih =>
    rw [List.map_cons]
    exact List.Forall₂.cons (h x (List.mem_cons_self _ _))
      (ih fun y hy => h y (List.mem_cons_of_mem _ hy))

/-- Helper: mapping with a relation-preserving function keeps Forall₂. -/
theorem forall₂_map_left_of {A B : Type} {R : A → B → Prop} {g : A → A}
    {l1 : List A} {l2 : List B} (h : List.Forall₂ R l1 l2)
    (hg : ∀ a b, R a b → R (g a) b) : List.Forall₂ R (l1.map g) l2 := by
  induction h with
  | nil => exact List.Forall₂.nil
  | cons hab htl ih =>
    rw [List.map_cons]
    exact List.Forall₂.cons (hg _ _ hab) ih

/-- Helper: division-and-clip keeps the number of rows. -/
theorem normMat_length (m : Mat) (c : ℚ) : (normMat m c).length = m.length := by
  simp [normMat]

/-- Helper: division-and-clip keeps every row width. -/
theorem normMat_rows {m : Mat} {N : ℕ} (h : ∀ row ∈ m, row.length = N)
    (c : ℚ) : ∀ row ∈ normMat m c, row.length = N := by
  intro row hrow
  unfold normMat at hrow
  rw [List.mem_map] at hrow
  obtain ⟨row', hrow', heq⟩ := hrow
  rw [← heq, List.length_map]
  exact h row' hrow'

/-- Helper: a dict value update keeps the key list. -/
theorem updSeries_keys (st : SeriesMap) (key : String) (f : Mat → Mat) :
    (updSeries st key f).map Prod.fst = st.map Prod.fst := by
  unfold updSeries
  rw [List.map_map]
  apply List.map_congr_left
  intro kv _
  by_cases h : kv.1 = key <;> simp [h]

/-- Helper: a successful normalization step keeps the key list. -/
theorem normStep_keys {p : ℚ} {st : SeriesMap} {k : String} {st' : SeriesMap}
    (h : normStepCones p st k = .ok st') :
    st'.map Prod.fst = st.map Prod.fst := by
  obtain ⟨m0, -, hbr⟩ := normStep_ok h
  rcases hbr with ⟨-, rfl⟩ | ⟨-, rfl⟩
  · exact updSeries_keys st k _
  · rfl

/-- Helper: a successful normalization step preserves the shape relation
with the position map. -/
theorem normStep_forall₂ {p : ℚ} {st : SeriesMap} {k : String}
    {st' : SeriesMap} {cone_positions : PosMap} {n : ℕ}
    (h : normStepCones p st k = .ok st')
    (hf : List.Forall₂ (fun kv pv => kv.1 = pv.1 ∧ kv.2.length = n ∧
      ∀ row ∈ kv.2, row.length = pv.2.length) st cone_positions) :
    List.Forall₂ (fun kv pv => kv.1 = pv.1 ∧ kv.2.length = n ∧
      ∀ row ∈ kv.2, row.length = pv.2.length) st' cone_positions := by
  obtain ⟨m0, -, hbr⟩ := normStep_ok h
  rcases hbr with ⟨-, rfl⟩ | ⟨-, rfl⟩
  · unfold updSeries
    refine forall₂_map_left_of hf ?_
    intro kv pv ⟨h1, h2, h3⟩
    by_cases hk : kv.1 = k
    · rw [if_pos hk]
      exact ⟨h1, by rw [normMat_length]; exact h2, normMat_rows h3 _⟩
    · rw [if_neg hk]
      exact ⟨h1, h2, h3⟩
  · exact hf

/-- C10: whenever build_L_series_for_cones returns a dictionary, it has
exactly the keys of cone_positions, each mapped to an array of ⌈T/dt⌉
rows of width equal to that key's receptor count, and any key other than
S, M, L is mapped to an all-zero array regardless of the photons
supplied. -/
theorem c10_output_keys_shapes_zero (e : ℚ → ℚ) (photons : List Photon)
    (cone_positions : PosMap) (T dt t0 sigma_um pc : ℚ) (d : SeriesMap)
    (hok : build_L_series_for_cones e photons cone_positions T dt t0
      sigma_um pc = .ok d) :
    d.map Prod.fst = cone_positions.map Prod.fst ∧
    List.Forall₂ (fun kv pv => kv.1 = pv.1 ∧ (kv.2.length : ℤ) = ⌈T / dt⌉ ∧
      ∀ row ∈ kv.2, row.length = pv.2.length) d cone_positions ∧
    ∀ kv ∈ d, kv.1 ∉ (["S", "M", "L"] : List String) →
      ∀ row ∈ kv.2, ∀ v ∈ row, v = 0 := by
  rw [build_cones_eq] at hok
  split at hok
  · cases hok
  · rename_i hg
    push_neg at hg
    have hn' : (((⌈T / dt⌉).toNat : ℤ)) = ⌈T / dt⌉ :=
      Int.toNat_of_nonneg hg.2
    split at hok
    · cases hok
    · simp only [List.foldlM_cons, List.foldlM_nil] at hok
      rw [except_bind_ok] at hok
      obtain ⟨s1, hS, hok⟩ := hok
      rw [except_bind_ok] at hok
      obtain ⟨s2, hM, hok⟩ := hok
      rw [except_bind_ok] at hok
      obtain ⟨s3, hL, hok⟩ := hok
      have hd : d = s3 := by
        have := hok
        simpa [pure, Except.pure] using this.symm
      subst hd
      set n := (⌈T / dt⌉).toNat with hn
      set init := cone_positions.map (fun kv =>
        (kv.1, zerosMat n kv.2.length)) with hinit
      have hR_init : List.Forall₂ (fun kv pv => kv.1 = pv.1 ∧
          kv.2.length = n ∧ ∀ row ∈ kv.2, row.length = pv.2.length)
          init cone_positions := by
        rw [hinit]
        refine forall₂_map_left _ _ ?_
        intro pv hpv
        refine ⟨rfl, ?_, ?_⟩
        · simp [zerosMat]
        · intro row hrow
          rw [List.eq_of_mem_replicate hrow]
          exact List.length_replicate _ _
      have hR_d := normStep_forall₂ hL (normStep_forall₂ hM
        (normStep_forall₂ hS hR_init))
      have hkeys : d.map Prod.fst = cone_positions.map Prod.fst := by
        rw [normStep_keys hL, normStep_keys hM, normStep_keys hS, hinit,
          List.map_map]
        apply List.map_congr_left
        intro kv _
        rfl
      refine ⟨hkeys, ?_, ?_⟩
      · exact hR_d.imp (fun a b hab => ⟨hab.1, by rw [hab.2.1]; exact hn',
          hab.2.2⟩)
      · intro kv hkv hks
        simp only [List.mem_cons, List.not_mem_nil, or_false] at hks
        push_neg at hks
        obtain ⟨h1, h2, h3⟩ := hks
        have hkv1 := normStep_mem_back hL hkv h3
        have hkv2 := normStep_mem_back hM hkv1 h2
        have hkv3 := normStep_mem_back hS hkv2 h1
        rw [hinit] at hkv3
        rw [List.mem_map] at hkv3
        obtain ⟨pv, hpv, heq⟩ := hkv3
        intro row hrow v hv
        rw [← heq] at hrow
        simp only at hrow
        exact zerosMat_zero _ _ row hrow v hv

/-- Witness for C10 on the concrete empty-window input. -/
theorem c10_output_keys_shapes_zero_witness :
    build_L_series_for_cones (fun _ => 1) []
        [("S", []), ("M", []), ("L", [])] 0 1 0 1 50 =
      .ok [("S", []), ("M", []), ("L", [])] ∧
    ([("S", []), ("M", []), ("L", [])] : SeriesMap).map Prod.fst =
      ([("S", []), ("M", []), ("L", [])] : PosMap).map Prod.fst := by
  have hc : ⌈(0:ℚ) / 1⌉ = 0 := by norm_num
  have hconc : build_L_series_for_cones (fun _ => 1) []
      [("S", []), ("M", []), ("L", [])] 0 1 0 1 50 =
      .ok [("S", []), ("M", []), ("L", [])] := by
    rw [build_cones_eq, if_neg (by norm_num [hc]), hc]
    rfl
  exact ⟨hconc, (c10_output_keys_shapes_zero (fun _ => 1) []
    [("S", []), ("M", []), ("L", [])] 0 1 0 1 50
    [("S", []), ("M", []), ("L", [])] hconc).1⟩

end ClaraVisio
